import Mathlib

/-!
Verification of the `Decoder` orchestration layer of the go-mp3 fork
(`decode.go`): sequential read with frame-refill, byte-offset `Seek`,
normalized `SeekPercent`, lazy frame-index construction and decoder
construction.

The per-frame machinery (`internal/frame`, `internal/frameheader`, the
`source` wrapper) lives outside the decoder file; it is abstracted here by
an `Mp3Source` record, derived from the specification of those interfaces.
The decoder state and every operation on it are translated statement by
statement from `decode.go`.

Conventions of the embedding:
* Go `int64` arithmetic is modelled by `Int` (the values involved are tiny,
  so 64-bit wrap-around never occurs); Go's `/` and `%` truncate toward
  zero, i.e. `Int.tdiv` / `Int.tmod`, and Go panics on a zero divisor, which
  is modelled as an explicit `panic` outcome.
* Go slice indexing and slicing panic when out of range; each such site is
  guarded and mapped to the `panic` outcome.
* `float64` / `float32` values (the seek fraction, the volume) are modelled
  by exact rationals.
* The `sync.Mutex` discipline is made observable through an event trace:
  every operation also returns the list of `Ev` events it performs, with
  `Ev.lock` / `Ev.unlock` marking `d.mux.Lock()` / `d.mux.Unlock()`.
-/

namespace Mp3

/-- Errors surfaced by the decoder, one constructor per `error` value that
`decode.go` can return. -/
inductive Mp3Err where
  | eof                 -- io.EOF
  | invalidWhence       -- mp3: invalid whence
  | seekNegative        -- mp3: cannot seek to negative position
  | seekBeyondEnd       -- mp3: cannot seek beyond stream end
  | sourceNotSeekable   -- the source.Seek failure on a non-io.Seeker reader
  deriving DecidableEq, Repr

/-- Raw outcome of the external `frame.Read` at end of stream: a clean
`io.EOF` or a `consts.UnexpectedEOF` from a truncated trailing frame. -/
inductive RawErr where
  | eof
  | unexpectedEOF
  deriving DecidableEq, Repr

/-- Observable events of a decoder operation.  `lock`/`unlock` mirror the
`d.mux.Lock()`/`d.mux.Unlock()` calls; `srcSeek k` marks a repositioning of
the underlying source to the start of frame `k`; `frameRead k` marks a
(successful) `frame.Read`+`Decode` of frame `k`. -/
inductive Ev where
  | lock
  | unlock
  | srcSeek (k : Nat)
  | frameRead (k : Nat)
  deriving DecidableEq, Repr

/-- Result of a seek-style operation: the returned `int64`, a returned
`error`, or a Go runtime panic. -/
inductive SeekRes where
  | ok (n : Int)
  | error (e : Mp3Err)
  | panic
  deriving DecidableEq, Repr

/-- Modelled from the spec: the external collaborators of the decoder
(`ByteSource`, `FrameHeaderParser`, `FrameDecoder`, §2/§6 of the spec),
abstracted as one record.  The stream consists of `numFrames` decodable
frames; `offsetOf i` is the byte offset of frame `i` in the source (the
frame-start table is strictly increasing, so a frame start is identified
with its ordinal and the source position is tracked in frame-index units);
`readF prev i` is the `frame.Frame` value produced by `frame.Read` for
frame `i` given the previously decoded frame (the bit-reservoir carry-over,
`nil` modelled as `none`); `decodeF fr v` is `fr.Decode(v)`, the PCM bytes
of a frame at volume `v`, always `bpf` (`BytesPerFrame`) bytes long;
`truncatedEnd` tells whether the stream ends in a truncated partial frame
(`consts.UnexpectedEOF`) instead of a clean `io.EOF`. -/
structure Mp3Source (φ α : Type) where
  numFrames : Nat
  bpf : Nat
  offsetOf : Nat → Int
  readF : Option φ → Nat → φ
  decodeF : φ → ℚ → List α
  truncatedEnd : Bool
  hLen : ∀ fr v, (decodeF fr v).length = bpf

/-- The `Decoder` struct of `decode.go`.  `srcIdx` is the position of the
underlying source in frame-index units (the frame whose start the source
is at); `seekable` records whether the wrapped reader is an `io.Seeker`.
The remaining fields are `frameStarts`, `buf`, `frame`, `pos`,
`bytesPerFrame`, `length` and `volume` verbatim. -/
structure Dec (φ α : Type) where
  srcIdx : Nat
  seekable : Bool
  frameStarts : List Int
  buf : List α
  frame : Option φ
  pos : Int
  bytesPerFrame : Int
  length : Int
  volume : ℚ

/-- The `invalidLength` sentinel. -/
def invalidLength : Int := -1

/-- Modelled from the spec: `source.Seek(off, io.SeekStart)` where `off` is
the start offset of frame `k`; fails when the wrapped reader is not an
`io.Seeker`, otherwise repositions the source at frame `k`. -/
def sourceSeek {φ α : Type} (st : Dec φ α) (k : Nat) : Option Mp3Err × Dec φ α :=
  if st.seekable then (none, { st with srcIdx := k })
  else (some .sourceNotSeekable, st)

/-- Go slice indexing `l[i]` on an `[]int64`: `none` means the index is out
of range, which panics at runtime. -/
def sliceIdx (l : List Int) (i : Int) : Option Int :=
  if 0 ≤ i then l.get? i.toNat else none

/-- The raw error produced by the external `frame.Read` once the frames are
exhausted. -/
def rawEnd {φ α : Type} (m : Mp3Source φ α) : RawErr :=
  if m.truncatedEnd then .unexpectedEOF else .eof

/-- Method `(*Decoder).readFrame`: run `frame.Read` at the current source
position with the carried-over frame, and on success append
`d.frame.Decode(d.volume)` to `d.buf`.  A clean `io.EOF` and a
`consts.UnexpectedEOF` (truncated trailing frame) are both returned as
`io.EOF`. -/
def readFrame {φ α : Type} (m : Mp3Source φ α) (st : Dec φ α) :
    Option Mp3Err × Dec φ α × List Ev :=
  if st.srcIdx < m.numFrames then
    let fr := m.readF st.frame st.srcIdx
    (none,
     { st with frame := some fr, srcIdx := st.srcIdx + 1,
               buf := st.buf ++ m.decodeF fr st.volume },
     [.frameRead st.srcIdx])
  else
    match rawEnd m with
    | .eof => (some .eof, st, [])
    | .unexpectedEOF => (some .eof, st, [])

/-- The `for len(d.buf) == 0 { ... readFrame ... }` loop of `Read`.  Each
successful `readFrame` advances `srcIdx`, so the loop runs at most
`numFrames - srcIdx + 1` times; `fuel` is any bound at least that large
(callers pass `numFrames + 1`), making the recursion structural. -/
def fillBuf {φ α : Type} (m : Mp3Source φ α) :
    Nat → Dec φ α → Option Mp3Err × Dec φ α × List Ev
  | 0, st => (none, st, [])
  | fuel + 1, st =>
    if st.buf.isEmpty then
      match readFrame m st with
      | (some e, st1, tr) => (some e, st1, tr)
      | (none, st1, tr) =>
        let r := fillBuf m fuel st1
        (r.1, r.2.1, tr ++ r.2.2)
    else (none, st, [])

/-- Method `(*Decoder).Read`: under the mutex, refill the buffer while it is
empty, then `n := copy(buf, d.buf)`, shrink `d.buf` by the copied prefix
and advance `d.pos`.  `n` is the caller's buffer length; the returned
value is the copied byte list (its length is Go's returned `n`). -/
def read {φ α : Type} (m : Mp3Source φ α) (st : Dec φ α) (n : Nat) :
    Except Mp3Err (List α) × Dec φ α × List Ev :=
  match fillBuf m (m.numFrames + 1) st with
  | (some e, st1, tr) => (.error e, st1, .lock :: (tr ++ [.unlock]))
  | (none, st1, tr) =>
    let copied := st1.buf.take n
    (.ok copied,
     { st1 with buf := st1.buf.drop copied.length,
                pos := st1.pos + copied.length },
     .lock :: (tr ++ [.unlock]))

/-- Method `(*Decoder).Seek`.  Translated clause by clause: the
`offset == 0 && whence == io.SeekCurrent` query special case; the `switch`
on `whence` (`io.SeekStart = 0`, `io.SeekCurrent = 1`, `io.SeekEnd = 2`,
default → error); then `d.pos = npos`, `d.buf = nil`, `d.frame = nil`,
`f := d.pos / d.bytesPerFrame` (Go division: a zero divisor panics), the
lookback branch for `f > 0` with its two `readFrame`s and the slicing
`d.buf[d.bytesPerFrame+(d.pos%d.bytesPerFrame):]`, and the first-frame
branch with one `readFrame` and `d.buf[d.pos:]` (Go slicing panics out of
range).  Note: this function takes no lock. -/
def seek {φ α : Type} (m : Mp3Source φ α) (st : Dec φ α) (offset whence : Int) :
    SeekRes × Dec φ α × List Ev :=
  if offset = 0 ∧ whence = 1 then
    (.ok st.pos, st, [])
  else if ¬(whence = 0 ∨ whence = 1 ∨ whence = 2) then
    (.error .invalidWhence, st, [])
  else
    let npos : Int :=
      if whence = 0 then offset
      else if whence = 1 then st.pos + offset
      else st.length + offset
    let st1 : Dec φ α := { st with pos := npos, buf := [], frame := none }
    if st1.bytesPerFrame = 0 then (.panic, st1, [])
    else
      let f : Int := Int.tdiv st1.pos st1.bytesPerFrame
      if 0 < f then
        let f1 := f - 1
        match sliceIdx st1.frameStarts f1 with
        | none => (.panic, st1, [])
        | some _ =>
          match sourceSeek st1 f1.toNat with
          | (some e, st2) => (.error e, st2, [.srcSeek f1.toNat])
          | (none, st2) =>
            match readFrame m st2 with
            | (some e, st3, tr1) => (.error e, st3, .srcSeek f1.toNat :: tr1)
            | (none, st3, tr1) =>
              match readFrame m st3 with
              | (some e, st4, tr2) =>
                (.error e, st4, .srcSeek f1.toNat :: (tr1 ++ tr2))
              | (none, st4, tr2) =>
                let k : Int := st4.bytesPerFrame + Int.tmod st4.pos st4.bytesPerFrame
                if 0 ≤ k ∧ k.toNat ≤ st4.buf.length then
                  (.ok npos, { st4 with buf := st4.buf.drop k.toNat },
                   .srcSeek f1.toNat :: (tr1 ++ tr2))
                else (.panic, st4, .srcSeek f1.toNat :: (tr1 ++ tr2))
      else
        match sliceIdx st1.frameStarts f with
        | none => (.panic, st1, [])
        | some _ =>
          match sourceSeek st1 f.toNat with
          | (some e, st2) => (.error e, st2, [.srcSeek f.toNat])
          | (none, st2) =>
            match readFrame m st2 with
            | (some e, st3, tr1) => (.error e, st3, .srcSeek f.toNat :: tr1)
            | (none, st3, tr1) =>
              if 0 ≤ st3.pos ∧ st3.pos.toNat ≤ st3.buf.length then
                (.ok npos, { st3 with buf := st3.buf.drop st3.pos.toNat },
                 .srcSeek f.toNat :: tr1)
              else (.panic, st3, .srcSeek f.toNat :: tr1)

/-- Go expression `int64(float64(n) * w)` of `SeekPercent`, for `w` in the unit interval:
the exact truncated product, computed on the rational's numerator and
denominator (`float64` rounding is idealized away; for `0 ≤ w` this is
`⌊n * w⌋`, see `fracIdx_eq_floor`). -/
def fracIdx (n : Nat) (w : ℚ) : Int := Int.tdiv ((n : Int) * w.num) (w.den : Int)

/-- The `for frameIndex < 0 { frameIndex++; offset-- }` loop of
`SeekPercent`; `fuel = (-frameIndex).toNat` iterations suffice, making the
recursion structural. -/
def adjustIndex : Nat → Int → Int → Int × Int
  | 0, frameIndex, offset => (frameIndex, offset)
  | fuel + 1, frameIndex, offset =>
    if frameIndex < 0 then adjustIndex fuel (frameIndex + 1) (offset - 1)
    else (frameIndex, offset)

/-- The pre-read loop of `SeekPercent`
(`for i := 0; i < offset; i++ { if frameIndex >= 0 { d.buf = d.buf[:0];
readFrame } ; frameIndex++ }`), with `cnt` counting the remaining
iterations. -/
def preroll {φ α : Type} (m : Mp3Source φ α) :
    Nat → Dec φ α → Int → Option Mp3Err × Dec φ α × List Ev
  | 0, st, _ => (none, st, [])
  | cnt + 1, st, frameIndex =>
    if 0 ≤ frameIndex then
      let st1 := { st with buf := ([] : List α) }
      match readFrame m st1 with
      | (some e, st2, tr) => (some e, st2, tr)
      | (none, st2, tr) =>
        let r := preroll m cnt st2 (frameIndex + 1)
        (r.1, r.2.1, tr ++ r.2.2)
    else preroll m cnt st (frameIndex + 1)

/-- Method `(*Decoder).SeekPercent`: the two range checks (before the lock), then
under the mutex the target computation
`frameIndex := int64(float64(len(d.frameStarts))*where) - 4` with the
underflow-adjustment loop, `d.frame = nil`,
`d.pos = d.bytesPerFrame * frameIndex`, the source repositioning
`d.source.Seek(d.frameStarts[frameIndex], io.SeekStart)` (Go indexing
panics when `frameStarts` has no such entry), the pre-read loop, and
`return d.pos, nil`. -/
def seekPercent {φ α : Type} (m : Mp3Source φ α) (st : Dec φ α) (w : ℚ) :
    SeekRes × Dec φ α × List Ev :=
  if w < 0 then (.error .seekNegative, st, [])
  else if 1 < w then (.error .seekBeyondEnd, st, [])
  else
    let off0 : Int := 4
    let fi0 : Int := fracIdx st.frameStarts.length w - off0
    let p := adjustIndex (-fi0).toNat fi0 off0
    let fi := p.1
    let off := p.2
    let st1 : Dec φ α := { st with frame := none }
    let st2 : Dec φ α := { st1 with pos := st1.bytesPerFrame * fi }
    match sliceIdx st2.frameStarts fi with
    | none => (.panic, st2, [.lock, .unlock])
    | some _ =>
      match sourceSeek st2 fi.toNat with
      | (some e, st3) => (.error e, st3, [.lock, .srcSeek fi.toNat, .unlock])
      | (none, st3) =>
        match preroll m off.toNat st3 fi with
        | (some e, st4, tr) =>
          (.error e, st4, .lock :: .srcSeek fi.toNat :: (tr ++ [.unlock]))
        | (none, st4, tr) =>
          (.ok st4.pos, st4, .lock :: .srcSeek fi.toNat :: (tr ++ [.unlock]))

/-- Method `(*Decoder).ensureFrameStartsAndLength`: a no-op when the length is
already known or the source cannot seek; otherwise record the current
position, rewind and skip tags, scan every frame header (appending its
start offset, refreshing `bytesPerFrame` and accumulating the length),
and restore the recorded position.  The scan itself is header-only and
external; it is modelled from the spec as producing the full table. -/
def ensureFrameStartsAndLength {φ α : Type} (m : Mp3Source φ α) (st : Dec φ α) :
    Dec φ α :=
  if st.length ≠ invalidLength then st
  else if ¬st.seekable then st
  else
    let saved := st.srcIdx
    let st1 := { st with
      srcIdx := 0,
      frameStarts := (List.range m.numFrames).map m.offsetOf,
      bytesPerFrame := if m.numFrames = 0 then st.bytesPerFrame else (m.bpf : Int),
      length := (m.numFrames : Int) * (m.bpf : Int) }
    { st1 with srcIdx := saved }

/-- The zero-valued `Decoder` built in `NewDecoder` (every field at its Go
zero value, `length` set to `invalidLength`); `seekable` records whether
the supplied reader is an `io.Seeker`. -/
def initState {φ α : Type} (seekable : Bool) : Dec φ α :=
  { srcIdx := 0, seekable := seekable, frameStarts := [], buf := [],
    frame := none, pos := 0, bytesPerFrame := 0, length := invalidLength,
    volume := 0 }

/-- Function `NewDecoder`: skip tags, eagerly `readFrame` once (note: `d.volume` is
still the zero value `0` at this point), read the sampling frequency from
the first frame, build the frame index, and only then set `d.volume = 1`. -/
def newDecoder {φ α : Type} (m : Mp3Source φ α) (seekable : Bool) :
    Except Mp3Err (Dec φ α) :=
  match readFrame m (initState seekable) with
  | (some e, _, _) => .error e
  | (none, st1, _) =>
    let st2 := ensureFrameStartsAndLength m st1
    .ok { st2 with volume := 1 }

/-- The frame indices read (decoded) along a trace, in order. -/
def frameReads : List Ev → List Nat
  | [] => []
  | .frameRead k :: tr => k :: frameReads tr
  | _ :: tr => frameReads tr

/-- A decoder state whose frame index has been built against `m`: seekable
source, one table entry per frame, the per-frame PCM byte count from the
headers (positive), and the accumulated total length. -/
def Built {φ α : Type} (m : Mp3Source φ α) (st : Dec φ α) : Prop :=
  st.seekable = true ∧ st.frameStarts.length = m.numFrames ∧
  st.bytesPerFrame = (m.bpf : Int) ∧ 0 < m.bpf ∧
  st.length = (m.numFrames : Int) * (m.bpf : Int)

/-- The rational one half, given in lowest terms so that it evaluates inside
the kernel. -/
def half : ℚ := ⟨1, 2, by decide, Nat.coprime_one_left 2⟩

/-- The rational three halves, in lowest terms. -/
def threeHalves : ℚ := ⟨3, 2, by decide, by norm_num⟩

/-- A concrete ten-frame stream used for witnesses and counterexamples:
four decoded bytes per frame, a strictly increasing 417-byte frame grid,
frame objects that record their decode context, and decoded bytes that
depend on both the frame object and the volume. -/
def mTest : Mp3Source Nat Nat where
  numFrames := 10
  bpf := 4
  offsetOf := fun i => 417 * i
  readF := fun pr i => (match pr with | none => 0 | some p => p) * 100 + i
  decodeF := fun fr v => List.replicate 4 (2 * fr + v.num.toNat)
  truncatedEnd := false
  hLen := fun _ _ => List.length_replicate _ _

/-- A decoder over `mTest` whose frame index has been built (the state a
fresh seekable decoder is in, with its initial frame-0 bytes already
drained and the position rewound to 0 for convenience). -/
def stTest : Dec Nat Nat where
  srcIdx := 0
  seekable := true
  frameStarts := (List.range 10).map (fun i => (417 * i : Int))
  buf := []
  frame := none
  pos := 0
  bytesPerFrame := 4
  length := 40
  volume := 1

/-- A decoder over `mTest` with three undelivered buffered bytes at
position 5. -/
def stSmall : Dec Nat Nat := { stTest with buf := [3, 1, 4], pos := 5 }

/-- A decoder over `mTest` with two undelivered buffered bytes. -/
def stBuf : Dec Nat Nat := { stTest with buf := [9, 9] }

/-- The decoder `NewDecoder` builds over `mTest` when the supplied reader
is not an `io.Seeker`: `length` stays at the sentinel, `bytesPerFrame`
stays 0 and `frameStarts` stays empty. -/
def dNoSeek : Dec Nat Nat :=
  match newDecoder mTest false with
  | .ok d => d
  | .error _ => initState false

theorem readFrame_lt {φ α : Type} (m : Mp3Source φ α) (st : Dec φ α)
    (h : st.srcIdx < m.numFrames) :
    readFrame m st = (none,
      { st with frame := some (m.readF st.frame st.srcIdx),
                srcIdx := st.srcIdx + 1,
                buf := st.buf ++ m.decodeF (m.readF st.frame st.srcIdx) st.volume },
      [.frameRead st.srcIdx]) := by
  simp [readFrame, h]

theorem readFrame_ge {φ α : Type} (m : Mp3Source φ α) (st : Dec φ α)
    (h : m.numFrames ≤ st.srcIdx) :
    readFrame m st = (some .eof, st, []) := by
  rw [readFrame, if_neg (Nat.not_lt.mpr h)]
  cases hr : rawEnd m <;> simp

theorem fracIdx_eq_floor (n : Nat) (w : ℚ) (h : 0 ≤ w) :
    fracIdx n w = ⌊(n : ℚ) * w⌋ := by
  have hden : (0 : Int) ≤ (w.den : Int) := by positivity
  have hnum : 0 ≤ (n : Int) * w.num :=
    mul_nonneg (Int.ofNat_nonneg n) (Rat.num_nonneg.mpr h)
  rw [fracIdx, Int.tdiv_eq_ediv hnum hden]
  rw [show ((n : ℚ) * w) = (((n : Int) * w.num : Int) : ℚ) / ((w.den : Nat) : ℚ) by
    push_cast
    rw [mul_div_assoc, Rat.num_div_den]]
  exact (Rat.floor_intCast_div_natCast _ _).symm

theorem adjustIndex_spec :
    ∀ (fuel : Nat) (fi off : Int), (-fi).toNat ≤ fuel →
    adjustIndex fuel fi off = (max fi 0, off + min fi 0) := by
  intro fuel
  induction fuel with
  | zero =>
    intro fi off h
    have h0 : 0 ≤ fi := by omega
    simp [adjustIndex, max_eq_left h0, min_eq_right h0]
  | succ n ih =>
    intro fi off h
    by_cases hfi : fi < 0
    · rw [adjustIndex, if_pos hfi, ih _ _ (by omega)]
      have h1 : max (fi + 1) 0 = max fi 0 := by omega
      have h2 : off - 1 + min (fi + 1) 0 = off + min fi 0 := by omega
      rw [h1, h2]
    · have h0 : 0 ≤ fi := by omega
      rw [adjustIndex, if_neg hfi]
      simp [max_eq_left h0, min_eq_right h0]

theorem fillBuf_of_nonempty {φ α : Type} (m : Mp3Source φ α) (st : Dec φ α)
    (h : st.buf ≠ []) (fuel : Nat) : fillBuf m fuel st = (none, st, []) := by
  cases fuel with
  | zero => rfl
  | succ f => rw [fillBuf, if_neg (by simp [h])]

theorem fillBuf_eof {φ α : Type} (m : Mp3Source φ α) (st : Dec φ α)
    (hb : st.buf = []) (hs : m.numFrames ≤ st.srcIdx) (fuel : Nat) :
    fillBuf m (fuel + 1) st = (some .eof, st, []) := by
  rw [fillBuf, if_pos (by simp [hb]), readFrame_ge m st hs]

theorem fillBuf_refill {φ α : Type} (m : Mp3Source φ α) (st : Dec φ α)
    (hb : st.buf = []) (hs : st.srcIdx < m.numFrames) (hbpf : 0 < m.bpf)
    (fuel : Nat) :
    fillBuf m (fuel + 1) st = (none,
      { st with frame := some (m.readF st.frame st.srcIdx), srcIdx := st.srcIdx + 1,
                buf := st.buf ++ m.decodeF (m.readF st.frame st.srcIdx) st.volume },
      [.frameRead st.srcIdx]) := by
  have hl := m.hLen (m.readF st.frame st.srcIdx) st.volume
  have hne : st.buf ++ m.decodeF (m.readF st.frame st.srcIdx) st.volume ≠ [] := by
    intro hcon
    have h0 : (st.buf ++ m.decodeF (m.readF st.frame st.srcIdx) st.volume).length = 0 := by
      rw [hcon]; rfl
    rw [List.length_append, hl] at h0
    omega
  rw [fillBuf, if_pos (by simp [hb]), readFrame_lt m st hs]
  simp only []
  rw [fillBuf_of_nonempty m _ hne fuel]
  simp

theorem preroll_ok {φ α : Type} (m : Mp3Source φ α) :
    ∀ (cnt : Nat) (st : Dec φ α) (fi : Int), 0 ≤ fi →
    st.srcIdx + cnt ≤ m.numFrames →
    (preroll m cnt st fi).1 = none ∧ (preroll m cnt st fi).2.1.pos = st.pos := by
  intro cnt
  induction cnt with
  | zero => intro st fi _ _; exact ⟨rfl, rfl⟩
  | succ c ih =>
    intro st fi h0 hc
    have hlt : st.srcIdx < m.numFrames := by omega
    simp only [preroll, if_pos h0]
    rw [readFrame_lt m { st with buf := ([] : List α) } hlt]
    simp only []
    constructor
    · exact (ih _ _ (by omega) (by simp; omega)).1
    · simpa using (ih _ _ (by omega) (by simp; omega)).2

theorem seekStart_first {φ α : Type} (m : Mp3Source φ α) (st : Dec φ α)
    (hB : Built m st) (t : Nat) (ht : (t : Int) < st.length) (hf : t / m.bpf = 0) :
    seek m st (t : Int) 0 =
      (.ok (t : Int),
       { st with pos := (t : Int), frame := some (m.readF none 0), srcIdx := 1,
                 buf := (m.decodeF (m.readF none 0) st.volume).drop t },
       [.srcSeek 0, .frameRead 0]) := by
  obtain ⟨hsk, hflen, hbpf, hbp, hltot⟩ := hB
  have htN : t < m.numFrames * m.bpf := by
    rw [hltot] at ht; exact_mod_cast ht
  have hn : 0 < m.numFrames := by
    rcases Nat.eq_zero_or_pos m.numFrames with h | h
    · rw [h] at htN; simp at htN
    · exact h
  have htb : t < m.bpf := (Nat.div_eq_zero_iff (by omega)).mp hf
  have hbne : ¬ st.bytesPerFrame = 0 := by
    rw [hbpf]
    exact_mod_cast Nat.pos_iff_ne_zero.mp hbp
  have htdiv : ((t : Int)).tdiv st.bytesPerFrame = 0 := by
    rw [hbpf, ← Int.ofNat_tdiv, hf]
    rfl
  have hidx : sliceIdx st.frameStarts 0 = some (st.frameStarts.get ⟨0, by omega⟩) := by
    rw [sliceIdx, if_pos le_rfl]
    exact List.get?_eq_get (by omega)
  rw [seek, if_neg (by simp), if_neg (by simp)]
  simp only [if_true, htdiv, lt_irrefl, if_false, if_neg hbne, hidx, Int.toNat_zero]
  rw [sourceSeek, if_pos hsk]
  simp only []
  rw [readFrame_lt m
    { st with srcIdx := 0, buf := ([] : List α), frame := none, pos := (t : Int) } hn]
  simp only []
  rw [if_pos (by
    refine ⟨by positivity, ?_⟩
    simp [m.hLen]
    omega)]
  simp [m.hLen]

theorem seekStart_lookback {φ α : Type} (m : Mp3Source φ α) (st : Dec φ α)
    (hB : Built m st) (t : Nat) (ht : (t : Int) < st.length) (hf : 0 < t / m.bpf) :
    seek m st (t : Int) 0 =
      (.ok (t : Int),
       { st with pos := (t : Int),
                 frame := some (m.readF (some (m.readF none (t / m.bpf - 1))) (t / m.bpf)),
                 srcIdx := t / m.bpf + 1,
                 buf := (m.decodeF (m.readF (some (m.readF none (t / m.bpf - 1))) (t / m.bpf)) st.volume).drop (t % m.bpf) },
       [.srcSeek (t / m.bpf - 1), .frameRead (t / m.bpf - 1), .frameRead (t / m.bpf)]) := by
  obtain ⟨hsk, hflen, hbpf, hbp, hltot⟩ := hB
  have htN : t < m.numFrames * m.bpf := by
    rw [hltot] at ht; exact_mod_cast ht
  have hn : 0 < m.numFrames := by
    rcases Nat.eq_zero_or_pos m.numFrames with h | h
    · rw [h] at htN; simp at htN
    · exact h
  have hfN : t / m.bpf < m.numFrames := (Nat.div_lt_iff_lt_mul hbp).mpr htN
  have hbne : ¬ st.bytesPerFrame = 0 := by
    rw [hbpf]
    exact_mod_cast Nat.pos_iff_ne_zero.mp hbp
  have htdiv : ((t : Int)).tdiv st.bytesPerFrame = ((t / m.bpf : Nat) : Int) := by
    rw [hbpf, ← Int.ofNat_tdiv]
  have htmod : Int.tmod (t : Int) ((m.bpf : Nat) : Int) = ((t % m.bpf : Nat) : Int) :=
    (Int.ofNat_tmod t m.bpf).symm
  have hsub : ((t / m.bpf : Nat) : Int) - 1 = ((t / m.bpf - 1 : Nat) : Int) := by omega
  have hidx : sliceIdx st.frameStarts ((t / m.bpf - 1 : Nat) : Int) =
      some (st.frameStarts.get ⟨t / m.bpf - 1, by omega⟩) := by
    rw [sliceIdx, if_pos (by positivity)]
    rw [Int.toNat_natCast]
    exact List.get?_eq_get (by omega)
  rw [seek, if_neg (by simp), if_neg (by simp)]
  simp only [if_true, htdiv, if_neg hbne, hsub, hidx,
    if_pos (show (0 : Int) < ((t / m.bpf : Nat) : Int) by exact_mod_cast hf)]
  rw [sourceSeek, if_pos hsk]
  simp only [Int.toNat_natCast]
  rw [readFrame_lt m
    { st with srcIdx := t / m.bpf - 1, buf := ([] : List α), frame := none, pos := (t : Int) }
    (by simpa using Nat.lt_of_le_of_lt (Nat.sub_le _ _) hfN)]
  simp only []
  rw [show t / m.bpf - 1 + 1 = t / m.bpf from by omega]
  rw [readFrame_lt m
    { st with srcIdx := t / m.bpf,
              buf := ([] : List α) ++ m.decodeF (m.readF none (t / m.bpf - 1)) st.volume,
              frame := some (m.readF none (t / m.bpf - 1)), pos := (t : Int) } hfN]
  have hmlt : t % m.bpf < m.bpf := Nat.mod_lt _ hbp
  simp only [hbpf, htmod]
  rw [if_pos (by
    constructor
    · positivity
    · simp [m.hLen]
      omega)]
  have hk : (((m.bpf : Nat) : Int) + ((t % m.bpf : Nat) : Int)).toNat = m.bpf + t % m.bpf := by
    omega
  simp only [hk, List.nil_append]
  rw [show m.bpf + t % m.bpf =
      (m.decodeF (m.readF none (t / m.bpf - 1)) st.volume).length + t % m.bpf from by
    rw [m.hLen]]
  rw [List.drop_append]
  simp

theorem read_of_nonempty {φ α : Type} (m : Mp3Source φ α) (st : Dec φ α)
    (h : st.buf ≠ []) (n : Nat) :
    read m st n = (.ok (st.buf.take n),
      { st with buf := st.buf.drop (st.buf.take n).length,
                pos := st.pos + ((st.buf.take n).length : Int) },
      [.lock, .unlock]) := by
  rw [read, fillBuf_of_nonempty m st h]
  rfl

theorem read_eof {φ α : Type} (m : Mp3Source φ α) (st : Dec φ α)
    (hb : st.buf = []) (hs : m.numFrames ≤ st.srcIdx) (n : Nat) :
    read m st n = (.error .eof, st, [.lock, .unlock]) := by
  rw [read, fillBuf_eof m st hb hs]
  rfl

theorem read_refill {φ α : Type} (m : Mp3Source φ α) (st : Dec φ α)
    (hb : st.buf = []) (hs : st.srcIdx < m.numFrames) (hbpf : 0 < m.bpf) (n : Nat) :
    read m st n =
      (.ok ((m.decodeF (m.readF st.frame st.srcIdx) st.volume).take n),
       { st with frame := some (m.readF st.frame st.srcIdx),
                 srcIdx := st.srcIdx + 1,
                 buf := (m.decodeF (m.readF st.frame st.srcIdx) st.volume).drop
                   ((m.decodeF (m.readF st.frame st.srcIdx) st.volume).take n).length,
                 pos := st.pos + (((m.decodeF (m.readF st.frame st.srcIdx) st.volume).take n).length : Int) },
       [.lock, .frameRead st.srcIdx, .unlock]) := by
  rw [read, fillBuf_refill m st hb hs hbpf]
  simp [hb]

theorem read_truncIrrel {φ α : Type} (m : Mp3Source φ α) (b : Bool) (st : Dec φ α)
    (n : Nat) :
    read { m with truncatedEnd := b } st n = read m st n := by
  have hrf : ∀ s : Dec φ α, readFrame { m with truncatedEnd := b } s = readFrame m s := by
    intro s
    by_cases h : s.srcIdx < m.numFrames
    · rw [readFrame_lt { m with truncatedEnd := b } s h, readFrame_lt m s h]
    · rw [readFrame_ge { m with truncatedEnd := b } s (Nat.le_of_not_lt h),
        readFrame_ge m s (Nat.le_of_not_lt h)]
  have hfb : ∀ (fuel : Nat) (s : Dec φ α),
      fillBuf { m with truncatedEnd := b } fuel s = fillBuf m fuel s := by
    intro fuel
    induction fuel with
    | zero => intro s; rfl
    | succ f ih =>
      intro s
      rw [fillBuf, fillBuf]
      by_cases hs : s.buf.isEmpty
      · rw [if_pos hs, if_pos hs, hrf s]
        rcases hre : readFrame m s with ⟨e, s1, tr⟩
        cases e with
        | none => simp [ih]
        | some e1 => rfl
      · rw [if_neg hs, if_neg hs]
  rw [read, read, hfb]

theorem ensure_preserves {φ α : Type} (m : Mp3Source φ α) (st : Dec φ α) :
    (ensureFrameStartsAndLength m st).buf = st.buf ∧
    (ensureFrameStartsAndLength m st).volume = st.volume := by
  rw [ensureFrameStartsAndLength]
  split
  · exact ⟨rfl, rfl⟩
  · split
    · exact ⟨rfl, rfl⟩
    · exact ⟨rfl, rfl⟩

/-- C6: requesting the current position with a zero offset is a pure query:
it returns `d.pos` and leaves the whole decoder state (position, buffer,
decode context, source position) untouched, performing no events at all. -/
theorem c6_thm {φ α : Type} (m : Mp3Source φ α) (st : Dec φ α) :
    seek m st 0 1 = (.ok st.pos, st, []) := rfl

/-- C7: round-trip: on a built frame index, a successful `Seek(x, start)`
with `0 ≤ x < totalLength` returns `x`, and a following `Seek(0, current)`
(position query) also returns exactly `x` and changes nothing. -/
theorem c7_thm {φ α : Type} (m : Mp3Source φ α) (st : Dec φ α) (hB : Built m st)
    (t : Nat) (ht : (t : Int) < st.length) :
    (seek m st (t : Int) 0).1 = .ok (t : Int) ∧
    seek m (seek m st (t : Int) 0).2.1 0 1 =
      (.ok (t : Int), (seek m st (t : Int) 0).2.1, []) := by
  rcases Nat.eq_zero_or_pos (t / m.bpf) with hf | hf
  · rw [seekStart_first m st hB t ht hf]
    exact ⟨rfl, rfl⟩
  · rw [seekStart_lookback m st hB t ht hf]
    exact ⟨rfl, rfl⟩

/-- C4: on a built frame index, a successful byte-offset seek to absolute
target `t ∈ [0, totalLength)` with containing frame `f = t / bytesPerFrame`
first decodes frame `f - 1` and discards its output, then decodes frame
`f`, leaving the buffer holding exactly the suffix of frame `f`'s decoded
bytes from `t % bytesPerFrame` on; when `f = 0` only frame 0 is decoded
and the buffer is its bytes from offset `t` on. -/
theorem c4_thm {φ α : Type} (m : Mp3Source φ α) (st : Dec φ α) (hB : Built m st)
    (t : Nat) (ht : (t : Int) < st.length) :
    (seek m st (t : Int) 0).1 = .ok (t : Int) ∧
    (0 < t / m.bpf →
      frameReads (seek m st (t : Int) 0).2.2 = [t / m.bpf - 1, t / m.bpf] ∧
      (seek m st (t : Int) 0).2.1.buf =
        (m.decodeF (m.readF (some (m.readF none (t / m.bpf - 1))) (t / m.bpf))
          st.volume).drop (t % m.bpf)) ∧
    (t / m.bpf = 0 →
      frameReads (seek m st (t : Int) 0).2.2 = [0] ∧
      (seek m st (t : Int) 0).2.1.buf =
        (m.decodeF (m.readF none 0) st.volume).drop t) := by
  rcases Nat.eq_zero_or_pos (t / m.bpf) with hf | hf
  · rw [seekStart_first m st hB t ht hf]
    exact ⟨rfl, fun hcon => absurd hf (by omega), fun _ => ⟨rfl, rfl⟩⟩
  · rw [seekStart_lookback m st hB t ht hf]
    exact ⟨rfl, fun _ => ⟨rfl, rfl⟩, fun hcon => absurd hcon (by omega)⟩

/-- C9: construction decodes the first frame while `volume` is still the
zero value `0`, and only afterwards sets `volume = 1`: the buffered bytes
of a fresh decoder are `Decode(0)` of the first frame even though the
decoder reports volume 1. -/
theorem c9_thm {φ α : Type} (m : Mp3Source φ α) (b : Bool) (hn : 0 < m.numFrames) :
    ∃ d : Dec φ α, newDecoder m b = .ok d ∧
      d.buf = m.decodeF (m.readF none 0) 0 ∧ d.volume = 1 := by
  rw [newDecoder, readFrame_lt m (initState b) hn]
  simp only []
  refine ⟨_, rfl, ?_, rfl⟩
  rw [(ensure_preserves m _).1]
  simp [initState]

/-- C5 (amended): one `Read(buffer)` call: a truncated trailing frame is
treated identically to a clean end of stream; at end of stream it returns
zero bytes with the end-of-stream status and no state change; with an
empty internal buffer it decodes exactly one more frame and appends its
bytes; it then copies `min (buffer length) (buffered bytes)` bytes,
advances `logicalPosition` by exactly the returned count (strictly, when
the destination buffer is nonempty), and drops the copied prefix. -/
theorem c5_thm {φ α : Type} (m : Mp3Source φ α) (st : Dec φ α) (n : Nat)
    (hbpf : 0 < m.bpf) :
    (∀ b, read { m with truncatedEnd := b } st n = read m st n) ∧
    (st.buf = [] → m.numFrames ≤ st.srcIdx →
      read m st n = (.error .eof, st, [.lock, .unlock])) ∧
    (st.buf = [] → st.srcIdx < m.numFrames →
      (read m st n).1 = .ok ((m.decodeF (m.readF st.frame st.srcIdx) st.volume).take n) ∧
      frameReads (read m st n).2.2 = [st.srcIdx] ∧
      (read m st n).2.1.buf =
        (m.decodeF (m.readF st.frame st.srcIdx) st.volume).drop
          (min n (m.decodeF (m.readF st.frame st.srcIdx) st.volume).length) ∧
      (read m st n).2.1.pos =
        st.pos + ((min n (m.decodeF (m.readF st.frame st.srcIdx) st.volume).length : Nat) : Int) ∧
      (0 < n → st.pos < (read m st n).2.1.pos)) ∧
    (st.buf ≠ [] →
      (read m st n).1 = .ok (st.buf.take n) ∧
      frameReads (read m st n).2.2 = [] ∧
      (read m st n).2.1.buf = st.buf.drop (min n st.buf.length) ∧
      (read m st n).2.1.pos = st.pos + ((min n st.buf.length : Nat) : Int) ∧
      (0 < n → st.pos < (read m st n).2.1.pos)) := by
  refine ⟨fun b => read_truncIrrel m b st n, fun hb hs => read_eof m st hb hs n, ?_, ?_⟩
  · intro hb hs
    rw [read_refill m st hb hs hbpf n]
    have hlen := m.hLen (m.readF st.frame st.srcIdx) st.volume
    refine ⟨rfl, rfl, by simp [List.length_take], by simp [List.length_take], ?_⟩
    intro hn0
    have hmin : 0 < min n (m.decodeF (m.readF st.frame st.srcIdx) st.volume).length := by
      rw [hlen]; omega
    simp [List.length_take]
    exact ⟨hn0, by omega⟩
  · intro hb
    rw [read_of_nonempty m st hb n]
    refine ⟨rfl, rfl, by simp [List.length_take], by simp [List.length_take], ?_⟩
    intro hn0
    have hmin : 0 < min n st.buf.length := by
      have := List.length_pos.mpr hb
      omega
    simp [List.length_take]
    exact ⟨hn0, List.length_pos.mpr hb⟩

/-- C1 (amended): on a built frame index, a successful `SeekPercent(f)`
with `f ∈ [0,1]` returns the byte offset of the pre-roll start frame
`max (⌊frameCount * f⌋ - 4) 0` (the target frame minus the lookback
margin, reduced near the start), i.e.
`bytesPerFrame * max (⌊frameCount * f⌋ - 4) 0`; that position is always an
exact multiple of `bytesPerFrame` (frame-aligned, never mid-frame). -/
theorem c1_thm {φ α : Type} (m : Mp3Source φ α) (st : Dec φ α) (hB : Built m st)
    (hn : 0 < m.numFrames) (w : ℚ) (h0 : 0 ≤ w) (h1 : w ≤ 1) :
    (seekPercent m st w).1 =
      .ok (st.bytesPerFrame * max (⌊(st.frameStarts.length : ℚ) * w⌋ - 4) 0) ∧
    ∃ k : Nat, st.bytesPerFrame * max (⌊(st.frameStarts.length : ℚ) * w⌋ - 4) 0 =
      st.bytesPerFrame * (k : Int) := by
  obtain ⟨hsk, hflen, hbpf, hbp, hltot⟩ := hB
  have hT0 : 0 ≤ ⌊(st.frameStarts.length : ℚ) * w⌋ := Int.floor_nonneg.mpr (by positivity)
  have hTn : ⌊(st.frameStarts.length : ℚ) * w⌋ ≤ (st.frameStarts.length : Int) := by
    calc ⌊(st.frameStarts.length : ℚ) * w⌋ ≤ ⌊((st.frameStarts.length : Nat) : ℚ)⌋ :=
          Int.floor_le_floor (mul_le_of_le_one_right (by positivity) h1)
    _ = (st.frameStarts.length : Int) := Int.floor_natCast _
  have hlen : 0 < st.frameStarts.length := by omega
  constructor
  · rw [seekPercent, if_neg (not_lt.mpr h0), if_neg (not_lt.mpr h1)]
    simp only []
    rw [fracIdx_eq_floor _ _ h0]
    rw [adjustIndex_spec _ _ _ le_rfl]
    simp only []
    set T := ⌊(st.frameStarts.length : ℚ) * w⌋ with hTdef
    have hidx : sliceIdx st.frameStarts (max (T - 4) 0) =
        some (st.frameStarts.get ⟨(max (T - 4) 0).toNat, by omega⟩) := by
      rw [sliceIdx, if_pos (le_max_right _ _)]
      exact List.get?_eq_get (by omega)
    rw [hidx]
    simp only []
    rw [sourceSeek, if_pos hsk]
    simp only []
    obtain ⟨hp1, hp2⟩ := preroll_ok m ((4 + min (T - 4) 0).toNat)
      { st with frame := none, pos := st.bytesPerFrame * max (T - 4) 0,
                srcIdx := (max (T - 4) 0).toNat }
      (max (T - 4) 0) (le_max_right _ _) (by simp only []; omega)
    have hpe : preroll m ((4 + min (T - 4) 0).toNat)
        { st with frame := none, pos := st.bytesPerFrame * max (T - 4) 0,
                  srcIdx := (max (T - 4) 0).toNat } (max (T - 4) 0) =
        (none,
         (preroll m ((4 + min (T - 4) 0).toNat)
           { st with frame := none, pos := st.bytesPerFrame * max (T - 4) 0,
                     srcIdx := (max (T - 4) 0).toNat } (max (T - 4) 0)).2.1,
         (preroll m ((4 + min (T - 4) 0).toNat)
           { st with frame := none, pos := st.bytesPerFrame * max (T - 4) 0,
                     srcIdx := (max (T - 4) 0).toNat } (max (T - 4) 0)).2.2) := by
      rw [← hp1]
    rw [hpe]
    simp only []
    rw [hp2]
  · exact ⟨(max (⌊(st.frameStarts.length : ℚ) * w⌋ - 4) 0).toNat, by
      rw [Int.toNat_of_nonneg (le_max_right _ _)]⟩

/-- C10: when `⌊frameCount * f⌋ = 0` (for instance `SeekPercent 0`, or any
`f < 1/frameCount`), the lookback margin is reduced to 0, no pre-roll
frame is decoded, the internal output buffer is left completely unchanged
(undelivered bytes are returned by the next `Read`), and the call reports
position 0. -/
theorem c10_thm {φ α : Type} (m : Mp3Source φ α) (st : Dec φ α) (hB : Built m st)
    (hn : 0 < m.numFrames) (w : ℚ) (h0 : 0 ≤ w) (h1 : w ≤ 1) (n : Nat)
    (hT : ⌊(st.frameStarts.length : ℚ) * w⌋ = 0) :
    (seekPercent m st w).1 = .ok 0 ∧
    (seekPercent m st w).2.1.buf = st.buf ∧
    (seekPercent m st w).2.1.pos = 0 ∧
    frameReads (seekPercent m st w).2.2 = [] ∧
    (st.buf ≠ [] →
      (read m (seekPercent m st w).2.1 n).1 = .ok (st.buf.take n)) := by
  obtain ⟨hsk, hflen, hbpf, hbp, hltot⟩ := hB
  have hlen : 0 < st.frameStarts.length := by omega
  have hidx : sliceIdx st.frameStarts 0 =
      some (st.frameStarts.get ⟨0, by omega⟩) := by
    rw [sliceIdx, if_pos le_rfl]
    exact List.get?_eq_get (by omega)
  have hseek : seekPercent m st w =
      (.ok (st.bytesPerFrame * 0),
       { st with frame := none, pos := st.bytesPerFrame * 0, srcIdx := 0 },
       [.lock, .srcSeek 0, .unlock]) := by
    rw [seekPercent, if_neg (not_lt.mpr h0), if_neg (not_lt.mpr h1)]
    simp only []
    rw [fracIdx_eq_floor _ _ h0, hT]
    rw [show adjustIndex (-((0 : Int) - 4)).toNat ((0 : Int) - 4) 4 = (0, 0) from rfl]
    simp only [Int.toNat_zero]
    rw [hidx]
    simp only []
    rw [sourceSeek, if_pos hsk]
    simp only [preroll]
    rfl
  rw [hseek]
  refine ⟨by rw [mul_zero], rfl, by simp [mul_zero], rfl, ?_⟩
  intro hbne
  rw [read_of_nonempty m
    { st with frame := none, pos := st.bytesPerFrame * 0, srcIdx := 0 } hbne n]

/-- C1 counterexample: on the ten-frame stream, `SeekPercent(1/2)`
succeeds and returns 4 (the offset of frame 1, the pre-roll start), not
`bytesPerFrame * ⌊frameCount * 1/2⌋ = 20` (the offset of target frame 5)
as the claim states. -/
theorem c1_cex :
    (seekPercent mTest stTest half).1 = .ok 4 ∧
    stTest.bytesPerFrame * ⌊(stTest.frameStarts.length : ℚ) * half⌋ = 20 ∧
    SeekRes.ok 4 ≠ SeekRes.ok 20 := by
  refine ⟨rfl, ?_, by decide⟩
  rw [← fracIdx_eq_floor _ _ (by decide : (0 : ℚ) ≤ half)]
  rfl

/-- C2: `Seek(100, end)` on a decoder whose source cannot seek
(`Length() = -1`, `bytesPerFrame = 0`) does not return the
capability-mismatch error: it first mutates state (position set to
`-1 + 100 = 99`, buffer cleared) and then panics on the integer division
`d.pos / d.bytesPerFrame` with a zero divisor. -/
theorem c2_thm :
    dNoSeek.length = invalidLength ∧
    (seek mTest dNoSeek 100 2).1 = .panic ∧
    (seek mTest dNoSeek 100 2).2.1.pos = 99 ∧
    (seek mTest dNoSeek 100 2).2.1.buf = [] ∧
    dNoSeek.buf ≠ [] := by
  exact ⟨rfl, rfl, rfl, rfl, by decide⟩

/-- C3: the two range checks of `SeekPercent` do reject fractions outside
`[0,1]` before any state mutation, locking or I/O (state returned
unchanged, empty event trace), but with an unavailable frame index
(non-seekable source, empty `frameStarts`) `SeekPercent(1/2)` panics on
the out-of-range slice index `d.frameStarts[0]` instead of returning an
error. -/
theorem c3_thm :
    seekPercent mTest dNoSeek (-half) = (.error .seekNegative, dNoSeek, []) ∧
    seekPercent mTest dNoSeek threeHalves = (.error .seekBeyondEnd, dNoSeek, []) ∧
    (seekPercent mTest dNoSeek half).1 = .panic := by
  exact ⟨rfl, rfl, rfl⟩

/-- C8: `Seek` performs no `mux.Lock()` at all (no lock event in its
trace) even though it mutates the shared buffer and repositions the
source, while `Read` and `SeekPercent` both run under the lock —
refuting the claim that every such operation acquires the exclusive
lock. -/
theorem c8_thm :
    Ev.lock ∉ (seek mTest stTest 8 0).2.2 ∧
    (seek mTest stTest 8 0).2.1.buf ≠ stTest.buf ∧
    (read mTest stTest 1).2.2.head? = some Ev.lock ∧
    (read mTest stTest 1).2.2.getLast? = some Ev.unlock ∧
    (seekPercent mTest stTest half).2.2.head? = some Ev.lock ∧
    (seekPercent mTest stTest half).2.2.getLast? = some Ev.unlock := by
  exact ⟨by decide, by decide, rfl, rfl, rfl, rfl⟩

/-- C5 counterexample: a `Read` with a zero-length destination buffer on a
decoder with three buffered bytes succeeds (no error, zero bytes copied)
and leaves `logicalPosition` unchanged at 5, so successive successful
reads do not strictly increase the position as the claim states. -/
theorem c5_cex :
    (read mTest stSmall 0).1 = .ok [] ∧
    stSmall.pos = 5 ∧
    (read mTest stSmall 0).2.1.pos = 5 := by
  exact ⟨rfl, rfl, rfl⟩

/-- Witness for C1: the amended theorem applied at the concrete ten-frame
stream and fraction 1/2. -/
theorem c1_witness :
    Built mTest stTest ∧ 0 < mTest.numFrames ∧ (0 : ℚ) ≤ half ∧ half ≤ 1 ∧
    ((seekPercent mTest stTest half).1 =
       .ok (stTest.bytesPerFrame * max (⌊(stTest.frameStarts.length : ℚ) * half⌋ - 4) 0) ∧
     ∃ k : Nat, stTest.bytesPerFrame * max (⌊(stTest.frameStarts.length : ℚ) * half⌋ - 4) 0 =
       stTest.bytesPerFrame * (k : Int)) :=
  ⟨⟨by decide, by decide, by decide, by decide, by decide⟩, by decide, by decide, by decide,
   c1_thm mTest stTest ⟨by decide, by decide, by decide, by decide, by decide⟩ (by decide) half (by decide) (by decide)⟩

/-- Witness for C4: the theorem applied at target byte 9 (frame 2, offset
1 within the frame) on the concrete ten-frame stream. -/
theorem c4_witness :
    Built mTest stTest ∧ ((9 : Nat) : Int) < stTest.length ∧
    ((seek mTest stTest ((9 : Nat) : Int) 0).1 = .ok ((9 : Nat) : Int) ∧
     (0 < 9 / mTest.bpf →
       frameReads (seek mTest stTest ((9 : Nat) : Int) 0).2.2 =
         [9 / mTest.bpf - 1, 9 / mTest.bpf] ∧
       (seek mTest stTest ((9 : Nat) : Int) 0).2.1.buf =
         (mTest.decodeF (mTest.readF (some (mTest.readF none (9 / mTest.bpf - 1)))
           (9 / mTest.bpf)) stTest.volume).drop (9 % mTest.bpf)) ∧
     (9 / mTest.bpf = 0 →
       frameReads (seek mTest stTest ((9 : Nat) : Int) 0).2.2 = [0] ∧
       (seek mTest stTest ((9 : Nat) : Int) 0).2.1.buf =
         (mTest.decodeF (mTest.readF none 0) stTest.volume).drop 9)) :=
  ⟨⟨by decide, by decide, by decide, by decide, by decide⟩, by decide,
   c4_thm mTest stTest ⟨by decide, by decide, by decide, by decide, by decide⟩ 9 (by decide)⟩

/-- Witness for C5: the amended theorem applied with a two-byte
destination buffer on a decoder with three buffered bytes. -/
theorem c5_witness :
    0 < mTest.bpf ∧
    ((∀ b, read { mTest with truncatedEnd := b } stSmall 2 = read mTest stSmall 2) ∧
     (stSmall.buf = [] → mTest.numFrames ≤ stSmall.srcIdx →
       read mTest stSmall 2 = (.error .eof, stSmall, [.lock, .unlock])) ∧
     (stSmall.buf = [] → stSmall.srcIdx < mTest.numFrames →
       (read mTest stSmall 2).1 =
         .ok ((mTest.decodeF (mTest.readF stSmall.frame stSmall.srcIdx) stSmall.volume).take 2) ∧
       frameReads (read mTest stSmall 2).2.2 = [stSmall.srcIdx] ∧
       (read mTest stSmall 2).2.1.buf =
         (mTest.decodeF (mTest.readF stSmall.frame stSmall.srcIdx) stSmall.volume).drop
           (min 2 (mTest.decodeF (mTest.readF stSmall.frame stSmall.srcIdx) stSmall.volume).length) ∧
       (read mTest stSmall 2).2.1.pos =
         stSmall.pos + ((min 2 (mTest.decodeF (mTest.readF stSmall.frame stSmall.srcIdx) stSmall.volume).length : Nat) : Int) ∧
       (0 < 2 → stSmall.pos < (read mTest stSmall 2).2.1.pos)) ∧
     (stSmall.buf ≠ [] →
       (read mTest stSmall 2).1 = .ok (stSmall.buf.take 2) ∧
       frameReads (read mTest stSmall 2).2.2 = [] ∧
       (read mTest stSmall 2).2.1.buf = stSmall.buf.drop (min 2 stSmall.buf.length) ∧
       (read mTest stSmall 2).2.1.pos = stSmall.pos + ((min 2 stSmall.buf.length : Nat) : Int) ∧
       (0 < 2 → stSmall.pos < (read mTest stSmall 2).2.1.pos))) :=
  ⟨by decide, c5_thm mTest stSmall 2 (by decide)⟩

/-- Witness for C7: the round-trip theorem applied at byte 9 on the
concrete ten-frame stream. -/
theorem c7_witness :
    Built mTest stTest ∧ ((9 : Nat) : Int) < stTest.length ∧
    ((seek mTest stTest ((9 : Nat) : Int) 0).1 = .ok ((9 : Nat) : Int) ∧
     seek mTest (seek mTest stTest ((9 : Nat) : Int) 0).2.1 0 1 =
       (.ok ((9 : Nat) : Int), (seek mTest stTest ((9 : Nat) : Int) 0).2.1, [])) :=
  ⟨⟨by decide, by decide, by decide, by decide, by decide⟩, by decide,
   c7_thm mTest stTest ⟨by decide, by decide, by decide, by decide, by decide⟩ 9 (by decide)⟩

/-- Witness for C9: the construction theorem applied to the concrete
stream; the buffered bytes are visibly `Decode(0)`, which differs from
`Decode(1)` here. -/
theorem c9_witness :
    0 < mTest.numFrames ∧
    (∃ d : Dec Nat Nat, newDecoder mTest true = .ok d ∧
       d.buf = mTest.decodeF (mTest.readF none 0) 0 ∧ d.volume = 1) ∧
    mTest.decodeF (mTest.readF none 0) 0 ≠ mTest.decodeF (mTest.readF none 0) 1 :=
  ⟨by decide, c9_thm mTest true (by decide), by decide⟩

/-- Witness for C10: the theorem applied at fraction 0 on a decoder with
two undelivered buffered bytes. -/
theorem c10_witness :
    Built mTest stBuf ∧ 0 < mTest.numFrames ∧ (0 : ℚ) ≤ 0 ∧ (0 : ℚ) ≤ 1 ∧
    ⌊(stBuf.frameStarts.length : ℚ) * 0⌋ = 0 ∧
    ((seekPercent mTest stBuf 0).1 = .ok 0 ∧
     (seekPercent mTest stBuf 0).2.1.buf = stBuf.buf ∧
     (seekPercent mTest stBuf 0).2.1.pos = 0 ∧
     frameReads (seekPercent mTest stBuf 0).2.2 = [] ∧
     (stBuf.buf ≠ [] →
       (read mTest (seekPercent mTest stBuf 0).2.1 5).1 = .ok (stBuf.buf.take 5))) :=
  ⟨⟨by decide, by decide, by decide, by decide, by decide⟩, by decide, by decide, by decide, by simp,
   c10_thm mTest stBuf ⟨by decide, by decide, by decide, by decide, by decide⟩ (by decide) 0 (by decide) (by decide) 5 (by simp)⟩

end Mp3
